import Mathlib

/-!
Shallow embedding, in Lean, of the SimPEG survey bookkeeping
(`SimPEG/NewSurvey.py`) and of the volume-regularization objective function
(`SimPEG/Examples/SEIS_VolumeRegularization.py`), together with theorems
checking the documented behaviour of that code.  Vectors of machine floats are
modelled as lists of exact rationals; numpy's 1-D `np.inner` becomes a
truncating dot product over lists.
-/

/-- Dot product of two 1-D vectors, as numpy's `np.inner` on equal-length 1-D
arrays (`zipWith` truncates at the shorter operand; the code only applies it
to matching lengths). -/
def npInner (a b : List ℚ) : ℚ := (List.zipWith (fun x y => x * y) a b).sum

/-- `Volume.estVol(m) = np.inner(self.mesh.vol, m)`: the discretized volume
integral of the model `m` over a mesh with cell-volume vector `vol`. -/
def Volume.estVol (vol m : List ℚ) : ℚ := npInner vol m

/-- `Volume.__call__(m) = 0.5*(self.estVol(m) - self.knownVolume)**2`. -/
def Volume.call (vol : List ℚ) (knownVolume : ℚ) (m : List ℚ) : ℚ :=
  (1 / 2) * (Volume.estVol vol m - knownVolume) ^ 2

/-- `Volume.deriv(m) = self.mesh.vol * (self.knownVolume - np.inner(self.mesh.vol, m))`:
elementwise scaling of the cell-volume vector by the scalar
`knownVolume - np.inner(vol, m)`. -/
def Volume.deriv (vol : List ℚ) (knownVolume : ℚ) (m : List ℚ) : List ℚ :=
  vol.map (fun vi => vi * (knownVolume - npInner vol m))

/-- `Volume.deriv2(m, v)` with a direction `v` supplied:
`Utils.mkvc(self.mesh.vol * np.inner(self.mesh.vol, v))` (`mkvc` is the
identity on an already 1-D array).  The model argument `m` is accepted, as in
the Python signature, and unused. -/
def Volume.deriv2v (vol : List ℚ) (m v : List ℚ) : List ℚ :=
  vol.map (fun vi => vi * npInner vol v)

/-- `Volume.deriv2(m)` with no direction: the dense matrix
`sp.csc_matrix(np.outer(self.mesh.vol, self.mesh.vol))`, whose `(i, j)` entry
is `vol[i] * vol[j]`.  The model argument `m` is accepted and unused. -/
def Volume.deriv2mat (vol : List ℚ) (m : List ℚ) : List (List ℚ) :=
  vol.map (fun vi => vol.map (fun vj => vi * vj))

/-- Dense matrix–vector product, rows dotted with the vector. -/
def matVec (A : List (List ℚ)) (v : List ℚ) : List ℚ :=
  A.map (fun row => npInner row v)

/-- One-sided finite-difference quotient of `Volume.__call__` in coordinate
direction `i` with step `h`: `(call(m + h*e_i) - call(m)) / h`, the
perturbation realised by replacing entry `i` of `m` with `m[i] + h`. -/
def fdQuotient (vol : List ℚ) (knownVolume : ℚ) (m : List ℚ) (i : Nat) (h : ℚ) : ℚ :=
  (Volume.call vol knownVolume (m.set i (m.getD i 0 + h))
    - Volume.call vol knownVolume m) / h

/-- Projection grid location of a receiver: the `projGLoc` property with
choices `"CC" | "F" | "E"`. -/
inductive GLoc where
  | CC
  | F
  | E
  deriving DecidableEq

/-- Receiver-locations input as handed to `RxLocationArray.validate`: a numpy
array that is either 1-D or 2-D. -/
inductive NpArray where
  | one (v : List ℚ)
  | two (rows : List (List ℚ))

/-- `RxLocationArray.validate`: a 1-D array of length `d` is reshaped by
`Utils.mkvc(value, 2).T` into a single-row `1 × d` array; a 2-D array is
passed through (the `("*", "*")` shape check of `properties.Array.validate`
accepts any 2-D array). -/
def RxLocationArray.validate : NpArray → List (List ℚ)
  | .one v => [v]
  | .two rows => rows

/-- Receivers: `BaseRx` carries a uid and a validated locations array; the
subclass `BaseTimeRx` additionally carries its sample times.  The uid is an
`Option` because the index-lookup code guards against a missing uid. -/
inductive Rx where
  | base (uid : Option Nat) (locs : List (List ℚ))
  | time (uid : Option Nat) (locs : List (List ℚ)) (times : List ℚ)
  deriving DecidableEq

/-- The receiver's uid. -/
def Rx.uid : Rx → Option Nat
  | .base u _ => u
  | .time u _ _ => u

/-- `BaseRx.nD = self.locs.shape[0]`, and for the time-domain subclass
`BaseTimeRx.nD = self.locs.shape[0] * len(self.times)`. -/
def Rx.nD : Rx → Nat
  | .base _ locs => locs.length
  | .time _ locs times => locs.length * times.length

/-- Python dict lookup `d.get(k, None)`, the dict being an insertion-ordered
association list with pairwise-distinct keys. -/
def dictGet {α β : Type} [DecidableEq α] (d : List (α × β)) (k : α) : Option β :=
  (d.find? (fun p => p.1 == k)).map Prod.snd

/-- Python `dict.setdefault(k, v)`: insert `k ↦ v` only when `k` is absent. -/
def setdefault {α β : Type} [DecidableEq α] (d : List (α × β)) (k : α) (v : β) :
    List (α × β) :=
  if (dictGet d k).isSome then d else d ++ [(k, v)]

/-- The dict built by `[order.setdefault(x.uid, ii) for ii, x in enumerate(value)]`,
running from index `n` with accumulator `acc`. -/
def buildOrderFrom {α : Type} [DecidableEq α] :
    Nat → List α → List (α × Nat) → List (α × Nat)
  | _, [], acc => acc
  | n, u :: rest, acc => buildOrderFrom (n + 1) rest (setdefault acc u n)

/-- The key → position dict rebuilt by `_rxList_validator` and
`_srcList_validator` after a successful uniqueness check. -/
def buildOrder {α : Type} [DecidableEq α] (uids : List α) : List (α × Nat) :=
  buildOrderFrom 0 uids []

/-- The enumerated `(key, index)` pairs starting at `n`: the contents of the
order dict when the keys are pairwise distinct. -/
def pairsFrom {α : Type} : Nat → List α → List (α × Nat)
  | _, [] => []
  | n, u :: rest => (u, n) :: pairsFrom (n + 1) rest

/-- `BaseSrc`: location, receiver list, uid, and the `_rxOrder` dict that the
receiver-list validator derives. -/
structure Src where
  uid : Option Nat
  loc : List ℚ
  rxList : List Rx
  rxOrder : List (Option Nat × Nat)
  deriving DecidableEq

/-- `BaseSrc._rxList_validator` run on an assignment to `rxList`: assert
`len(set(value)) == len(value)` ('The rxList must be unique'), then rebuild
`_rxOrder` with `setdefault(rx.uid, ii)` over the enumerated list. -/
def Src.setRxList (s : Src) (rxs : List Rx) : Except String Src :=
  if rxs.Nodup then
    .ok { s with rxList := rxs, rxOrder := buildOrder (rxs.map Rx.uid) }
  else .error "The rxList must be unique"

/-- `BaseSrc.getReceiverIndex` on a list argument: raise when some queried
receiver lacks a uid; look every uid up in `_rxOrder`; raise when any lookup
misses; otherwise return the looked-up positions. -/
def Src.getReceiverIndex (s : Src) (receivers : List Rx) :
    Except String (List Nat) :=
  if receivers.any (fun rx => rx.uid.isNone) then
    .error "Source does not have a uid"
  else
    let inds := receivers.map (fun rx => dictGet s.rxOrder rx.uid)
    if inds.any (fun o => o.isNone) then
      .error "Some of the receiver specified are not in this survey."
    else
      .ok (inds.map (fun o => o.getD 0))

/-- `BaseSrc.vnD = np.array([rx.nD for rx in self.rxList])`. -/
def Src.vnD (s : Src) : List Nat := s.rxList.map Rx.nD

/-- `BaseSrc.nD = self.vnD.sum()`. -/
def Src.nD (s : Src) : Nat := s.vnD.sum

/-- `BaseSurvey`: the source list together with the `_sourceOrder` dict that
the source-list validator derives. -/
structure Survey where
  srcList : List Src
  sourceOrder : List (Option Nat × Nat)
  deriving DecidableEq

/-- `BaseSurvey._srcList_validator` run on an assignment to `srcList`: assert
uniqueness ('The srcList must be unique'), then rebuild `_sourceOrder` with
`setdefault(src.uid, ii)` over the enumerated list. -/
def mkSurvey (srcs : List Src) : Except String Survey :=
  if srcs.Nodup then
    .ok { srcList := srcs, sourceOrder := buildOrder (srcs.map Src.uid) }
  else .error "The srcList must be unique"

/-- `BaseSurvey.getSourceIndex` on a list argument, mirroring
`BaseSrc.getReceiverIndex` over `_sourceOrder`. -/
def Survey.getSourceIndex (sv : Survey) (sources : List Src) :
    Except String (List Nat) :=
  if sources.any (fun s => s.uid.isNone) then
    .error "Source does not have a uid"
  else
    let inds := sources.map (fun s => dictGet sv.sourceOrder s.uid)
    if inds.any (fun o => o.isNone) then
      .error "Some of the sources specified are not in this survey."
    else
      .ok (inds.map (fun o => o.getD 0))

/-- `BaseSurvey.vnD = np.array([src.nD for src in self.srcList])`. -/
def Survey.vnD (sv : Survey) : List Nat := sv.srcList.map Src.nD

/-- `BaseSurvey.nD = self.vnD.sum()`. -/
def Survey.nD (sv : Survey) : Nat := sv.vnD.sum

/-- `BaseSurvey.nSrc = len(self.srcList)`. -/
def Survey.nSrc (sv : Survey) : Nat := sv.srcList.length

/-- `BaseSurvey.dpred` unconditionally raises, directing the caller to
`simulation.dpred`. -/
def Survey.dpred (sv : Survey) (m : List ℚ) (f : Option (List ℚ)) :
    Except String (List ℚ) :=
  .error "Survey no longer has the dpred method. Please use simulation.dpred instead"

/-- Projection-cache view of `BaseRx`: exactly the fields `BaseRx.getP` reads
or writes.  Meshes and interpolation matrices are identified by opaque `Nat`
keys, and the mesh collaborator's `getInterpolationMat` is passed in as a
function. -/
structure BaseRxProj where
  locs : List (List ℚ)
  projGLoc : GLoc
  storeProjections : Bool
  Ps : List ((Nat × GLoc) × Nat)
  deriving DecidableEq

/-- `BaseRx.getP(mesh, projGLoc)`: default the grid location to the
receiver's, return the cached matrix when `(mesh, projGLoc)` is a key of
`_Ps`, otherwise build `mesh.getInterpolationMat(self.locs, projGLoc)` and
store it under that key iff `storeProjections`. -/
def BaseRxProj.getP (interp : Nat → List (List ℚ) → GLoc → Nat)
    (rx : BaseRxProj) (mesh : Nat) (pg : Option GLoc) : Nat × BaseRxProj :=
  let g := pg.getD rx.projGLoc
  match dictGet rx.Ps (mesh, g) with
  | some P => (P, rx)
  | none =>
    let P := interp mesh rx.locs g
    if rx.storeProjections then
      (P, { rx with Ps := rx.Ps ++ [((mesh, g), P)] })
    else (P, rx)

/-- Sample receivers, sources and interpolation builders for concrete
evaluations. -/
def sampleRx1 : Rx := .base (some 1) []

def sampleRx2 : Rx := .base (some 2) []

def sampleSrc0 : Src := { uid := some 10, loc := [], rxList := [], rxOrder := [] }

def sampleSrc1 : Src := { uid := some 11, loc := [], rxList := [], rxOrder := [] }

def sampleSrcOrphan : Src := { uid := some 99, loc := [], rxList := [], rxOrder := [] }

def sampleSurvey : Survey :=
  { srcList := [sampleSrc0, sampleSrc1],
    sourceOrder := buildOrder (List.map Src.uid [sampleSrc0, sampleSrc1]) }

def interpSeven : Nat → List (List ℚ) → GLoc → Nat := fun _ _ _ => 7

def interpNine : Nat → List (List ℚ) → GLoc → Nat := fun _ _ _ => 9

def sampleRxProjStore : BaseRxProj :=
  { locs := [], projGLoc := .CC, storeProjections := true, Ps := [] }

def sampleRxProjNoStore : BaseRxProj :=
  { locs := [], projGLoc := .CC, storeProjections := false, Ps := [] }

def sampleRxProjHit : BaseRxProj :=
  { locs := [], projGLoc := .CC, storeProjections := true,
    Ps := [((0, GLoc.CC), 5)] }

theorem getD_map_mul_right (l : List ℚ) (k : ℚ) :
    ∀ i : Nat, (l.map (fun x => x * k)).getD i 0 = l.getD i 0 * k := by
  induction l with
  | nil => intro i; simp
  | cons a l ih =>
    intro i
    cases i with
    | zero => simp
    | succ j => simpa using ih j

theorem npInner_map_mul_left (c : ℚ) (l v : List ℚ) :
    npInner (l.map (fun x => c * x)) v = c * npInner l v := by
  induction l generalizing v with
  | nil => simp [npInner]
  | cons a l ih =>
    cases v with
    | nil => simp [npInner]
    | cons b v =>
      simp only [npInner, List.map_cons, List.zipWith_cons_cons, List.sum_cons] at *
      rw [ih v]
      ring

theorem npInner_set (vol : List ℚ) (m : List ℚ) (i : Nat) (x : ℚ)
    (hi : i < m.length) :
    npInner vol (m.set i x) = npInner vol m + vol.getD i 0 * (x - m.getD i 0) := by
  induction m generalizing vol i with
  | nil => simp at hi
  | cons a m ih =>
    cases i with
    | zero =>
      cases vol with
      | nil => simp [npInner]
      | cons b vol =>
        simp only [List.set_cons_zero, npInner, List.zipWith_cons_cons,
          List.sum_cons, List.getD_cons_zero]
        ring
    | succ j =>
      cases vol with
      | nil => simp [npInner]
      | cons b vol =>
        have hj : j < m.length := Nat.lt_of_succ_lt_succ hi
        simp only [List.set_cons_succ, npInner, List.zipWith_cons_cons,
          List.sum_cons, List.getD_cons_succ]
        have := ih vol j hj
        simp only [npInner] at this
        rw [this]
        ring

theorem volume_deriv_getD (vol : List ℚ) (knownVolume : ℚ) (m : List ℚ) (i : Nat) :
    (Volume.deriv vol knownVolume m).getD i 0
      = vol.getD i 0 * (knownVolume - npInner vol m) :=
  getD_map_mul_right vol (knownVolume - npInner vol m) i

/-- C1: for a mesh with cell-volume vector `vol` and a model `m` of matching
length, each component `i` of `Volume.deriv(m)` equals
`vol[i] * (knownVolume - dot(vol, m))`. -/
theorem volume_deriv_components (vol m : List ℚ) (knownVolume : ℚ)
    (hm : m.length = vol.length) (i : Nat) (hi : i < vol.length) :
    (Volume.deriv vol knownVolume m).getD i 0
      = vol.getD i 0 * (knownVolume - npInner vol m) :=
  volume_deriv_getD vol knownVolume m i

theorem volume_deriv_components_witness :
    ([1, 1] : List ℚ).length = ([2, 3] : List ℚ).length ∧ 1 < ([2, 3] : List ℚ).length ∧
      (Volume.deriv [2, 3] 5 [1, 1]).getD 1 0
        = ([2, 3] : List ℚ).getD 1 0 * (5 - npInner [2, 3] [1, 1]) :=
  ⟨rfl, by decide, volume_deriv_components [2, 3] [1, 1] 5 rfl 1 (by decide)⟩

/-- C3: whenever `dot(vol, m) = knownVolume`, the objective value
`Volume.__call__(m)` is `0` and `Volume.deriv(m)` is the zero vector. -/
theorem volume_zero_at_target (vol m : List ℚ) (knownVolume : ℚ)
    (h : npInner vol m = knownVolume) :
    Volume.call vol knownVolume m = 0
      ∧ Volume.deriv vol knownVolume m = List.replicate vol.length 0 := by
  constructor
  · simp [Volume.call, Volume.estVol, h]
  · simp [Volume.deriv, h]

theorem volume_zero_at_target_witness :
    npInner [1, 1] [2, 3] = (5 : ℚ) ∧
      (Volume.call [1, 1] 5 [2, 3] = 0
        ∧ Volume.deriv [1, 1] 5 [2, 3] = List.replicate ([1, 1] : List ℚ).length 0) :=
  ⟨by norm_num [npInner], volume_zero_at_target [1, 1] [2, 3] 5 (by norm_num [npInner])⟩

/-- C4: the directional second derivative `Volume.deriv2(m, v)` agrees with
the dense Hessian `Volume.deriv2(m)` (the outer product `vol ⊗ vol`) applied
to `v`; both equal `vol * dot(vol, v)`, and neither depends on `m`. -/
theorem volume_deriv2_consistent (vol m m2 v : List ℚ) :
    Volume.deriv2v vol m v = matVec (Volume.deriv2mat vol m) v
      ∧ Volume.deriv2v vol m v = vol.map (fun vi => vi * npInner vol v)
      ∧ Volume.deriv2v vol m v = Volume.deriv2v vol m2 v
      ∧ Volume.deriv2mat vol m = Volume.deriv2mat vol m2 := by
  refine ⟨?_, rfl, rfl, rfl⟩
  simp [Volume.deriv2v, Volume.deriv2mat, matVec, List.map_map, Function.comp,
    npInner_map_mul_left]

/-- C2 (counterexample): with `vol = [1]`, `knownVolume = 1`, `m = [0]`, the
finite-difference quotient of `Volume.__call__` in direction `0` tends to `-1`
as the step shrinks, while `Volume.deriv` gives `+1`; hence no bound
`|fd - deriv| <= C * |h|` can hold — the analytic `deriv` does not match the
finite-difference gradient to within `O(h)`. -/
theorem volume_fd_deriv_counterexample :
    ¬ ∃ C : ℚ, ∀ h : ℚ, h ≠ 0 → |h| ≤ 1 →
      |fdQuotient [1] 1 [0] 0 h - (Volume.deriv [1] 1 [0]).getD 0 0| ≤ C * |h| := by
  rintro ⟨C, hC⟩
  set D : ℚ := max C 1 with hD
  have hD1 : (1 : ℚ) ≤ D := le_max_right C 1
  have hDpos : (0 : ℚ) < D := lt_of_lt_of_le one_pos hD1
  set h0 : ℚ := 1 / (2 * D) with hh0
  have hpos : 0 < h0 := by positivity
  have hne : h0 ≠ 0 := ne_of_gt hpos
  have habs : |h0| = h0 := abs_of_pos hpos
  have hle : h0 ≤ 1 / 2 := by
    rw [hh0, div_le_div_iff (by positivity) (by norm_num)]
    linarith
  have h1 : |h0| ≤ 1 := by rw [habs]; linarith
  have hBound := hC h0 hne h1
  have e1 : (Volume.deriv [1] 1 [0]).getD 0 0 = 1 := by
    norm_num [Volume.deriv, npInner]
  have e2 : fdQuotient [1] 1 [0] 0 h0 = h0 / 2 - 1 := by
    simp only [fdQuotient, Volume.call, Volume.estVol, npInner,
      List.getD_cons_zero, List.set_cons_zero, List.zipWith_cons_cons,
      List.zipWith_nil_right, List.sum_cons, List.sum_nil]
    rw [div_eq_iff hne]
    ring
  rw [e1, e2] at hBound
  have hCD : C * |h0| ≤ D * h0 := by
    rw [habs]
    exact mul_le_mul_of_nonneg_right (le_max_left C 1) (le_of_lt hpos)
  have hDh : D * h0 = 1 / 2 := by
    rw [hh0]
    field_simp
    ring
  have hlb : (3 : ℚ) / 2 ≤ |h0 / 2 - 1 - 1| := by
    rw [abs_of_neg (by linarith)]
    linarith
  linarith

/-- C2 (amended): the finite-difference quotient of `Volume.__call__` in
coordinate direction `i` matches the NEGATION of the analytic
`Volume.deriv(m)[i]` to within `O(h)` — exactly, the quotient equals
`-deriv(m)[i] + (h/2) * vol[i]^2`, so the deviation from `-deriv(m)[i]` is
bounded by `(vol[i]^2/2) * |h|`; `Volume.deriv` returns the negated true
gradient of `Volume.__call__`. -/
theorem volume_fd_matches_neg_deriv (vol : List ℚ) (knownVolume : ℚ) (m : List ℚ)
    (i : Nat) (hi : i < m.length) (h : ℚ) (hh : h ≠ 0) :
    fdQuotient vol knownVolume m i h
        = -((Volume.deriv vol knownVolume m).getD i 0)
          + (h / 2) * (vol.getD i 0) ^ 2
      ∧ |fdQuotient vol knownVolume m i h
            - (-((Volume.deriv vol knownVolume m).getD i 0))|
          ≤ ((vol.getD i 0) ^ 2 / 2) * |h| := by
  have key : npInner vol (m.set i (m.getD i 0 + h))
      = npInner vol m + vol.getD i 0 * h := by
    rw [npInner_set vol m i _ hi]
    ring
  have e1 : fdQuotient vol knownVolume m i h
      = -((Volume.deriv vol knownVolume m).getD i 0)
        + (h / 2) * (vol.getD i 0) ^ 2 := by
    unfold fdQuotient Volume.call Volume.estVol
    rw [key, volume_deriv_getD, div_eq_iff hh]
    ring
  refine ⟨e1, ?_⟩
  rw [e1]
  have h3 : -((Volume.deriv vol knownVolume m).getD i 0)
        + (h / 2) * (vol.getD i 0) ^ 2
        - (-((Volume.deriv vol knownVolume m).getD i 0))
      = (h / 2) * (vol.getD i 0) ^ 2 := by ring
  rw [h3, abs_mul, abs_of_nonneg (sq_nonneg (vol.getD i 0)), abs_div, abs_two]
  exact le_of_eq (by ring)

theorem volume_fd_matches_neg_deriv_witness :
    0 < ([1] : List ℚ).length ∧ (1 : ℚ) ≠ 0 ∧
      (fdQuotient [2] 0 [1] 0 1
          = -((Volume.deriv [2] 0 [1]).getD 0 0)
            + ((1 : ℚ) / 2) * (([2] : List ℚ).getD 0 0) ^ 2
        ∧ |fdQuotient [2] 0 [1] 0 1
              - (-((Volume.deriv [2] 0 [1]).getD 0 0))|
            ≤ ((([2] : List ℚ).getD 0 0) ^ 2 / 2) * |(1 : ℚ)|) :=
  ⟨by decide, by norm_num,
    volume_fd_matches_neg_deriv [2] 0 [1] 0 (by decide) 1 (by norm_num)⟩

theorem dictGet_nil {α β : Type} [DecidableEq α] (k : α) :
    dictGet ([] : List (α × β)) k = none := rfl

theorem dictGet_singleton_same {α β : Type} [DecidableEq α] (k : α) (v : β) :
    dictGet [(k, v)] k = some v := by
  simp [dictGet]

theorem dictGet_singleton_ne {α β : Type} [DecidableEq α] (k k2 : α) (v : β)
    (h : k ≠ k2) : dictGet [(k, v)] k2 = none := by
  simp [dictGet, h]

theorem setdefault_of_absent {α β : Type} [DecidableEq α]
    (d : List (α × β)) (k : α) (v : β) (h : dictGet d k = none) :
    setdefault d k v = d ++ [(k, v)] := by
  simp [setdefault, h]

theorem dictGet_append_of_none {α β : Type} [DecidableEq α]
    (d1 d2 : List (α × β)) (k : α) (h : dictGet d1 k = none) :
    dictGet (d1 ++ d2) k = dictGet d2 k := by
  have hfind : d1.find? (fun p => p.1 == k) = none := by
    cases hf : d1.find? (fun p => p.1 == k) with
    | none => rfl
    | some p => rw [dictGet, hf] at h; simp at h
  simp [dictGet, List.find?_append, hfind]

theorem buildOrderFrom_eq_pairs {α : Type} [DecidableEq α] (uids : List α) :
    ∀ (n : Nat) (acc : List (α × Nat)), uids.Nodup →
      (∀ u ∈ uids, dictGet acc u = none) →
      buildOrderFrom n uids acc = acc ++ pairsFrom n uids := by
  induction uids with
  | nil => intro n acc _ _; simp [buildOrderFrom, pairsFrom]
  | cons u rest ih =>
    intro n acc hnd habs
    have hu : dictGet acc u = none := habs u (List.mem_cons_self u rest)
    have hstep : buildOrderFrom n (u :: rest) acc
        = buildOrderFrom (n + 1) rest (acc ++ [(u, n)]) := by
      rw [buildOrderFrom, setdefault_of_absent acc u n hu]
    rw [hstep, ih (n + 1) (acc ++ [(u, n)]) (List.Nodup.of_cons hnd) ?_]
    · rw [pairsFrom, List.append_assoc]
      rfl
    · intro u2 hu2
      have hne : u ≠ u2 := by
        intro he
        exact (List.nodup_cons.mp hnd).1 (he ▸ hu2)
      rw [dictGet_append_of_none acc [(u, n)] u2 (habs u2 (List.mem_cons_of_mem u hu2))]
      exact dictGet_singleton_ne u u2 n hne

theorem dictGet_pairsFrom_get {α : Type} [DecidableEq α] (uids : List α) :
    ∀ (n i : Nat) (hi : i < uids.length), uids.Nodup →
      dictGet (pairsFrom n uids) (uids.get ⟨i, hi⟩) = some (n + i) := by
  induction uids with
  | nil => intro n i hi; simp at hi
  | cons u rest ih =>
    intro n i hi hnd
    cases i with
    | zero =>
      simp [pairsFrom, dictGet]
    | succ j =>
      have hj : j < rest.length := Nat.lt_of_succ_lt_succ hi
      have hmem : rest.get ⟨j, hj⟩ ∈ rest := List.get_mem rest j hj
      have hne : u ≠ rest.get ⟨j, hj⟩ := by
        intro he
        exact (List.nodup_cons.mp hnd).1 (he ▸ hmem)
      have hget : (u :: rest).get ⟨j + 1, hi⟩ = rest.get ⟨j, hj⟩ := rfl
      rw [hget, pairsFrom]
      have htail := ih (n + 1) j hj (List.Nodup.of_cons hnd)
      have hhead : dictGet ((u, n) :: pairsFrom (n + 1) rest) (rest.get ⟨j, hj⟩)
          = dictGet (pairsFrom (n + 1) rest) (rest.get ⟨j, hj⟩) := by
        simp only [dictGet]
        rw [List.find?_cons_of_neg _ (by simpa using hne)]
      rw [hhead, htail]
      congr 1
      omega

theorem dictGet_buildOrder_get {α : Type} [DecidableEq α] (uids : List α)
    (hnd : uids.Nodup) (i : Nat) (hi : i < uids.length) :
    dictGet (buildOrder uids) (uids.get ⟨i, hi⟩) = some i := by
  rw [buildOrder, buildOrderFrom_eq_pairs uids 0 [] hnd (fun u _ => dictGet_nil u)]
  rw [List.nil_append]
  have := dictGet_pairsFrom_get uids 0 i hi hnd
  simpa using this

theorem dictGet_buildOrderFrom_none {α : Type} [DecidableEq α] (uids : List α) :
    ∀ (n : Nat) (acc : List (α × Nat)) (u : α),
      dictGet acc u = none → u ∉ uids →
      dictGet (buildOrderFrom n uids acc) u = none := by
  induction uids with
  | nil => intro n acc u hacc _; exact hacc
  | cons u0 rest ih =>
    intro n acc u hacc hmem
    rw [buildOrderFrom]
    refine ih (n + 1) (setdefault acc u0 n) u ?_ (fun h => hmem (List.mem_cons_of_mem u0 h))
    have hne : u0 ≠ u := fun he => hmem (he ▸ List.mem_cons_self u0 rest)
    rw [setdefault]
    by_cases hc : (dictGet acc u0).isSome
    · rw [if_pos hc]; exact hacc
    · rw [if_neg hc, dictGet_append_of_none acc [(u0, n)] u hacc]
      exact dictGet_singleton_ne u0 u n hne

theorem dictGet_buildOrder_none {α : Type} [DecidableEq α] (uids : List α)
    (u : α) (h : u ∉ uids) : dictGet (buildOrder uids) u = none :=
  dictGet_buildOrderFrom_none uids 0 [] u (dictGet_nil u) h

/-- C5: assigning a receiver list containing a duplicate to a source, or a
source list containing a duplicate to a survey, is rejected by the validator
at assignment time; on a successful assignment the uid → position dict is
rebuilt so that each element's uid maps to its list index (element uids are
pairwise distinct, one fresh uuid per object in the running system). -/
theorem survey_unique_validators (s : Src) (rxs : List Rx) (srcs : List Src) :
    (¬ rxs.Nodup → s.setRxList rxs = .error "The rxList must be unique")
    ∧ ((rxs.map Rx.uid).Nodup →
        ∃ s2, s.setRxList rxs = .ok s2 ∧ s2.rxList = rxs ∧
          ∀ (i : Nat) (hi : i < rxs.length),
            dictGet s2.rxOrder (Rx.uid (rxs.get ⟨i, hi⟩)) = some i)
    ∧ (¬ srcs.Nodup → mkSurvey srcs = .error "The srcList must be unique")
    ∧ ((srcs.map Src.uid).Nodup →
        ∃ sv, mkSurvey srcs = .ok sv ∧ sv.srcList = srcs ∧
          ∀ (i : Nat) (hi : i < srcs.length),
            dictGet sv.sourceOrder (Src.uid (srcs.get ⟨i, hi⟩)) = some i) := by
  refine ⟨?_, ?_, ?_, ?_⟩
  · intro hnd
    simp [Src.setRxList, hnd]
  · intro hnd
    have hnodup : rxs.Nodup := hnd.of_map _
    refine ⟨{ s with rxList := rxs, rxOrder := buildOrder (rxs.map Rx.uid) },
      by simp [Src.setRxList, hnodup], rfl, ?_⟩
    intro i hi
    show dictGet (buildOrder (rxs.map Rx.uid)) (Rx.uid (rxs.get ⟨i, hi⟩)) = some i
    have hi2 : i < (rxs.map Rx.uid).length := by simpa using hi
    have hget : (rxs.map Rx.uid).get ⟨i, hi2⟩ = Rx.uid (rxs.get ⟨i, hi⟩) := by
      simp [List.get_map]
    rw [← hget]
    exact dictGet_buildOrder_get _ hnd i hi2
  · intro hnd
    simp [mkSurvey, hnd]
  · intro hnd
    have hnodup : srcs.Nodup := hnd.of_map _
    refine ⟨{ srcList := srcs, sourceOrder := buildOrder (srcs.map Src.uid) },
      by simp [mkSurvey, hnodup], rfl, ?_⟩
    intro i hi
    show dictGet (buildOrder (srcs.map Src.uid)) (Src.uid (srcs.get ⟨i, hi⟩)) = some i
    have hi2 : i < (srcs.map Src.uid).length := by simpa using hi
    have hget : (srcs.map Src.uid).get ⟨i, hi2⟩ = Src.uid (srcs.get ⟨i, hi⟩) := by
      simp [List.get_map]
    rw [← hget]
    exact dictGet_buildOrder_get _ hnd i hi2

theorem survey_unique_validators_witness :
    ¬ ([sampleRx1, sampleRx1] : List Rx).Nodup
    ∧ sampleSrc0.setRxList [sampleRx1, sampleRx1]
        = .error "The rxList must be unique"
    ∧ (([sampleRx1, sampleRx2] : List Rx).map Rx.uid).Nodup
    ∧ (∃ s2, sampleSrc0.setRxList [sampleRx1, sampleRx2] = .ok s2
        ∧ s2.rxList = [sampleRx1, sampleRx2]
        ∧ dictGet s2.rxOrder (Rx.uid sampleRx2) = some 1) := by
  refine ⟨by decide,
    (survey_unique_validators sampleSrc0 [sampleRx1, sampleRx1] []).1 (by decide),
    by decide, ?_⟩
  obtain ⟨s2, h1, h2, h3⟩ :=
    (survey_unique_validators sampleSrc0 [sampleRx1, sampleRx2] []).2.1 (by decide)
  refine ⟨s2, h1, h2, ?_⟩
  have := h3 1 (by decide)
  simpa using this

theorem dictGet_buildOrder_uid {γ : Type} [DecidableEq γ] (uid : γ → Option Nat)
    (mem : List γ) (hnd : (mem.map uid).Nodup) (q : γ) (hq : q ∈ mem) :
    dictGet (buildOrder (mem.map uid)) (uid q) = some (mem.indexOf q) := by
  have hj : mem.indexOf q < mem.length := List.indexOf_lt_length.mpr hq
  have hj2 : mem.indexOf q < (mem.map uid).length := by simpa using hj
  have h := dictGet_buildOrder_get (mem.map uid) hnd (mem.indexOf q) hj2
  rw [List.get_map] at h
  simpa [List.indexOf_get hj] using h

/-- C6: for a survey built by the validator, `getSourceIndex` on a list of
sources all present in `srcList` returns their list positions in query order;
when some queried source lacks a uid or its uid is absent from the list, the
whole call raises and no partial result is returned.  The same holds for
`getReceiverIndex` over a source's receiver list. -/
theorem survey_index_lookup (srcs qs : List Src) (sv : Survey)
    (s s2 : Src) (rxs qr : List Rx) :
    (mkSurvey srcs = .ok sv →
      (((srcs.map Src.uid).Nodup → (∀ x ∈ srcs, (Src.uid x).isSome) →
          (∀ q ∈ qs, q ∈ srcs) →
          sv.getSourceIndex qs = .ok (qs.map (fun q => srcs.indexOf q)))
        ∧ ((∃ q ∈ qs, Src.uid q = none ∨ Src.uid q ∉ srcs.map Src.uid) →
            ∃ e, sv.getSourceIndex qs = .error e)))
    ∧ (s.setRxList rxs = .ok s2 →
      (((rxs.map Rx.uid).Nodup → (∀ x ∈ rxs, (Rx.uid x).isSome) →
          (∀ q ∈ qr, q ∈ rxs) →
          s2.getReceiverIndex qr = .ok (qr.map (fun q => rxs.indexOf q)))
        ∧ ((∃ q ∈ qr, Rx.uid q = none ∨ Rx.uid q ∉ rxs.map Rx.uid) →
            ∃ e, s2.getReceiverIndex qr = .error e))) := by
  constructor
  · intro hsv
    have hnodup : srcs.Nodup := by
      by_contra hn
      simp [mkSurvey, hn] at hsv
    rw [mkSurvey, if_pos hnodup] at hsv
    injection hsv with h
    subst h
    constructor
    · intro hnd hsome hq
      have g1 : (qs.any fun x => (Src.uid x).isNone) = false := by
        rw [List.any_eq_false]
        intro x hx
        have hs := hsome x (hq x hx)
        cases hu : Src.uid x with
        | none => rw [hu] at hs; simp at hs
        | some u => simp [hu]
      have key : ∀ q ∈ qs,
          dictGet (buildOrder (srcs.map Src.uid)) (Src.uid q)
            = some (srcs.indexOf q) :=
        fun q hmem => dictGet_buildOrder_uid Src.uid srcs hnd q (hq q hmem)
      have g2 : ((qs.map fun x =>
            dictGet (buildOrder (srcs.map Src.uid)) (Src.uid x)).any
          fun o => o.isNone) = false := by
        rw [List.any_eq_false]
        intro o ho
        obtain ⟨q, hqmem, rfl⟩ := List.mem_map.mp ho
        rw [key q hqmem]
        simp
      simp only [Survey.getSourceIndex, g1, Bool.false_eq_true, if_false, g2]
      rw [List.map_map]
      congr 1
      apply List.map_congr_left
      intro q hqmem
      simp [Function.comp, key q hqmem]
    · rintro ⟨q, hqmem, hcase⟩
      by_cases g1 : (qs.any fun x => (Src.uid x).isNone) = true
      · exact ⟨"Source does not have a uid",
          by simp [Survey.getSourceIndex, g1]⟩
      · have g1f : (qs.any fun x => (Src.uid x).isNone) = false := by
          revert g1
          cases qs.any fun x => (Src.uid x).isNone <;> simp
        have hqsome : Src.uid q ∉ srcs.map Src.uid := by
          rcases hcase with hnone | hnot
          · exfalso
            rw [List.any_eq_false] at g1f
            exact g1f q hqmem (by simp [hnone])
          · exact hnot
        have hdg : dictGet (buildOrder (srcs.map Src.uid)) (Src.uid q) = none :=
          dictGet_buildOrder_none _ _ hqsome
        have g2 : ((qs.map fun x =>
              dictGet (buildOrder (srcs.map Src.uid)) (Src.uid x)).any
            fun o => o.isNone) = true := by
          rw [List.any_eq_true]
          exact ⟨_, List.mem_map_of_mem _ hqmem, by rw [hdg]; rfl⟩
        exact ⟨"Some of the sources specified are not in this survey.",
          by simp [Survey.getSourceIndex, g1f, g2]⟩
  · intro hset
    have hnodup : rxs.Nodup := by
      by_contra hn
      simp [Src.setRxList, hn] at hset
    rw [Src.setRxList, if_pos hnodup] at hset
    injection hset with h
    subst h
    constructor
    · intro hnd hsome hq
      have g1 : (qr.any fun x => (Rx.uid x).isNone) = false := by
        rw [List.any_eq_false]
        intro x hx
        have hs := hsome x (hq x hx)
        cases hu : Rx.uid x with
        | none => rw [hu] at hs; simp at hs
        | some u => simp [hu]
      have key : ∀ q ∈ qr,
          dictGet (buildOrder (rxs.map Rx.uid)) (Rx.uid q)
            = some (rxs.indexOf q) :=
        fun q hmem => dictGet_buildOrder_uid Rx.uid rxs hnd q (hq q hmem)
      have g2 : ((qr.map fun x =>
            dictGet (buildOrder (rxs.map Rx.uid)) (Rx.uid x)).any
          fun o => o.isNone) = false := by
        rw [List.any_eq_false]
        intro o ho
        obtain ⟨q, hqmem, rfl⟩ := List.mem_map.mp ho
        rw [key q hqmem]
        simp
      simp only [Src.getReceiverIndex, g1, Bool.false_eq_true, if_false, g2]
      rw [List.map_map]
      congr 1
      apply List.map_congr_left
      intro q hqmem
      simp [Function.comp, key q hqmem]
    · rintro ⟨q, hqmem, hcase⟩
      by_cases g1 : (qr.any fun x => (Rx.uid x).isNone) = true
      · exact ⟨"Source does not have a uid",
          by simp [Src.getReceiverIndex, g1]⟩
      · have g1f : (qr.any fun x => (Rx.uid x).isNone) = false := by
          revert g1
          cases qr.any fun x => (Rx.uid x).isNone <;> simp
        have hqsome : Rx.uid q ∉ rxs.map Rx.uid := by
          rcases hcase with hnone | hnot
          · exfalso
            rw [List.any_eq_false] at g1f
            exact g1f q hqmem (by simp [hnone])
          · exact hnot
        have hdg : dictGet (buildOrder (rxs.map Rx.uid)) (Rx.uid q) = none :=
          dictGet_buildOrder_none _ _ hqsome
        have g2 : ((qr.map fun x =>
              dictGet (buildOrder (rxs.map Rx.uid)) (Rx.uid x)).any
            fun o => o.isNone) = true := by
          rw [List.any_eq_true]
          exact ⟨_, List.mem_map_of_mem _ hqmem, by rw [hdg]; rfl⟩
        exact ⟨"Some of the receiver specified are not in this survey.",
          by simp [Src.getReceiverIndex, g1f, g2]⟩

theorem survey_index_lookup_witness :
    mkSurvey [sampleSrc0, sampleSrc1] = .ok sampleSurvey
    ∧ sampleSurvey.getSourceIndex [sampleSrc1, sampleSrc0]
        = .ok [([sampleSrc0, sampleSrc1] : List Src).indexOf sampleSrc1,
            ([sampleSrc0, sampleSrc1] : List Src).indexOf sampleSrc0]
    ∧ (∃ e, sampleSurvey.getSourceIndex [sampleSrcOrphan] = .error e) := by
  have h := survey_index_lookup [sampleSrc0, sampleSrc1] [sampleSrc1, sampleSrc0]
    sampleSurvey sampleSrc0 sampleSrc0 [] []
  have h2 := survey_index_lookup [sampleSrc0, sampleSrc1] [sampleSrcOrphan]
    sampleSurvey sampleSrc0 sampleSrc0 [] []
  refine ⟨rfl, ?_, ?_⟩
  · have hok := (h.1 rfl).1 (by decide) (by decide) (by decide)
    simpa using hok
  · exact (h2.1 rfl).2 ⟨sampleSrcOrphan, by decide, Or.inr (by decide)⟩

/-- C7: `BaseSurvey.dpred` raises unconditionally for every model and every
optional fields argument, with a message directing callers to
`simulation.dpred`; it never returns a predicted-data value. -/
theorem survey_dpred_raises (sv : Survey) (m : List ℚ) (f : Option (List ℚ)) :
    sv.dpred m f
      = .error "Survey no longer has the dpred method. Please use simulation.dpred instead" :=
  rfl

/-- C8: the survey data count is the sum over its sources of the per-source
data counts, each of which is the sum over the source's receivers; a `BaseRx`
contributes its number of location rows, a `BaseTimeRx` its number of
location rows times its number of time samples. -/
theorem survey_nD_aggregation (sv : Survey) (s : Src) (u : Option Nat)
    (locs : List (List ℚ)) (ts : List ℚ) :
    sv.nD = (sv.srcList.map Src.nD).sum
      ∧ s.nD = (s.rxList.map Rx.nD).sum
      ∧ (Rx.base u locs).nD = locs.length
      ∧ (Rx.time u locs ts).nD = locs.length * ts.length :=
  ⟨rfl, rfl, rfl, rfl⟩

/-- C9: `BaseRx.getP` is a memoization per `(mesh, projGLoc)` key: on a cache
hit the stored matrix is returned with the receiver unchanged (no call to the
mesh's interpolation builder); no field other than `_Ps` is ever modified;
with `storeProjections = False` the cache `_Ps` is unchanged by the call; and
with `storeProjections = True` a repeated call on the same key reproduces the
first call's result even under a different interpolation builder — at most
one construction per key. -/
theorem rx_getP_memoized (interp interp2 : Nat → List (List ℚ) → GLoc → Nat)
    (rx : BaseRxProj) (mesh : Nat) (pg : Option GLoc) :
    (∀ P, dictGet rx.Ps (mesh, pg.getD rx.projGLoc) = some P →
        BaseRxProj.getP interp rx mesh pg = (P, rx))
    ∧ ((BaseRxProj.getP interp rx mesh pg).2.locs = rx.locs
        ∧ (BaseRxProj.getP interp rx mesh pg).2.projGLoc = rx.projGLoc
        ∧ (BaseRxProj.getP interp rx mesh pg).2.storeProjections
            = rx.storeProjections)
    ∧ (rx.storeProjections = false →
        (BaseRxProj.getP interp rx mesh pg).2.Ps = rx.Ps)
    ∧ (rx.storeProjections = true →
        BaseRxProj.getP interp2 ((BaseRxProj.getP interp rx mesh pg).2) mesh pg
          = BaseRxProj.getP interp rx mesh pg) := by
  cases hdg : dictGet rx.Ps (mesh, pg.getD rx.projGLoc) with
  | some P0 =>
    have hfst : BaseRxProj.getP interp rx mesh pg = (P0, rx) := by
      simp only [BaseRxProj.getP, hdg]
    refine ⟨?_, ?_, ?_, ?_⟩
    · intro P hP
      injection hP with hP
      rw [hfst, hP]
    · rw [hfst]
      exact ⟨rfl, rfl, rfl⟩
    · intro _
      rw [hfst]
    · intro _
      rw [hfst]
      simp only [BaseRxProj.getP, hdg]
  | none =>
    cases hstore : rx.storeProjections with
    | false =>
      have hfst : BaseRxProj.getP interp rx mesh pg
          = (interp mesh rx.locs (pg.getD rx.projGLoc), rx) := by
        simp only [BaseRxProj.getP, hdg, hstore, Bool.false_eq_true, if_false]
      refine ⟨?_, ?_, ?_, ?_⟩
      · intro P hP
        exact absurd hP (by simp)
      · rw [hfst]
        exact ⟨rfl, rfl, hstore⟩
      · intro _
        rw [hfst]
      · intro hc
        exact absurd hc (by simp)
    | true =>
      have hfst : BaseRxProj.getP interp rx mesh pg
          = (interp mesh rx.locs (pg.getD rx.projGLoc),
            { rx with Ps := rx.Ps
                ++ [((mesh, pg.getD rx.projGLoc),
                  interp mesh rx.locs (pg.getD rx.projGLoc))] }) := by
        simp only [BaseRxProj.getP, hdg, hstore, if_true]
      refine ⟨?_, ?_, ?_, ?_⟩
      · intro P hP
        exact absurd hP (by simp)
      · rw [hfst]
        exact ⟨rfl, rfl, hstore⟩
      · intro hc
        exact absurd hc (by simp)
      · intro _
        rw [hfst]
        have hsecond : dictGet (rx.Ps
              ++ [((mesh, pg.getD rx.projGLoc),
                interp mesh rx.locs (pg.getD rx.projGLoc))])
            (mesh, pg.getD rx.projGLoc)
            = some (interp mesh rx.locs (pg.getD rx.projGLoc)) := by
          rw [dictGet_append_of_none _ _ _ hdg]
          exact dictGet_singleton_same _ _
        simp only [BaseRxProj.getP, hsecond]

theorem rx_getP_memoized_witness :
    BaseRxProj.getP interpNine
        ((BaseRxProj.getP interpSeven sampleRxProjStore 0 none).2) 0 none
      = BaseRxProj.getP interpSeven sampleRxProjStore 0 none
    ∧ (BaseRxProj.getP interpSeven sampleRxProjNoStore 0 none).2.Ps
        = sampleRxProjNoStore.Ps
    ∧ BaseRxProj.getP interpSeven sampleRxProjHit 0 none
        = (5, sampleRxProjHit) := by
  refine ⟨?_, ?_, ?_⟩
  · exact (rx_getP_memoized interpSeven interpNine sampleRxProjStore 0 none).2.2.2 rfl
  · exact (rx_getP_memoized interpSeven interpNine sampleRxProjNoStore 0
      none).2.2.1 rfl
  · exact (rx_getP_memoized interpSeven interpNine sampleRxProjHit 0 none).1 5
      (by decide)

/-- C10: a receiver's `nD` equals the number of rows of its validated
locations array; a 1-D locations input of length `d` is reshaped by the
validator into a single `1 × d` row, and such a receiver has `nD = 1`. -/
theorem rx_nD_validated_locations (u : Option Nat) (value : NpArray)
    (v : List ℚ) :
    (Rx.base u (RxLocationArray.validate value)).nD
        = (RxLocationArray.validate value).length
      ∧ RxLocationArray.validate (NpArray.one v) = [v]
      ∧ (Rx.base u (RxLocationArray.validate (NpArray.one v))).nD = 1 :=
  ⟨rfl, rfl, rfl⟩
